import Mathlib

/-! # gaurun: configuration state, the live pusher-cap endpoint and the FCM client constructor

A shallow embedding of `gaurun/conf.go` and of `gcm.NewClient` (`gcm/client.go`).

* Go strings are byte sequences: `GoString` is a list of byte values.
* `int64` and `int` fields are integers; `uint64` arithmetic is on naturals
  reduced modulo `2 ^ 64` wherever the Go code can wrap.
* The global `ConfGaurun` is passed in and out of the handler explicitly.
* The library routines the handler runs its input through, `url.ParseQuery`
  and `strconv.ParseInt`, are embedded from the Go standard library.
-/

set_option autoImplicit false

namespace Gaurun

/-! ## Strings -/

/-- A Go string: its bytes, in order. -/
abbrev GoString := List Nat

/-- The bytes of an ASCII literal. -/
def ascii (s : String) : GoString := s.data.map Char.toNat

/-! ## Configuration (`conf.go`, lines 14-63) -/

/-- Section `core` of the configuration. -/
structure SectionCore where
  Port : GoString
  WorkerNum : Int
  QueueNum : Int
  NotificationMax : Int
  PusherMax : Int
  ShutdownTimeout : Int
  Pid : GoString
  AllowsEmptyMessage : Bool
  deriving DecidableEq, Repr

/-- Section `android` of the configuration. -/
structure SectionAndroid where
  Enabled : Bool
  ApiKey : GoString
  Timeout : Int
  KeepAliveTimeout : Int
  KeepAliveConns : Int
  RetryMax : Int
  ServiceAccountKeyPath : GoString
  ProjectId : GoString
  deriving DecidableEq, Repr

/-- Section `ios` of the configuration. -/
structure SectionIos where
  Enabled : Bool
  PemCertPath : GoString
  PemKeyPath : GoString
  PemKeyPassphrase : GoString
  TokenAuthKeyPath : GoString
  TokenAuthKeyID : GoString
  TokenAuthTeamID : GoString
  Sandbox : Bool
  RetryMax : Int
  Timeout : Int
  KeepAliveTimeout : Int
  KeepAliveConns : Int
  Topic : GoString
  deriving DecidableEq, Repr

/-- Section `log` of the configuration. -/
structure SectionLog where
  AccessLog : GoString
  ErrorLog : GoString
  Level : GoString
  deriving DecidableEq, Repr

/-- The whole configuration document. -/
structure ConfToml where
  Core : SectionCore
  Android : SectionAndroid
  Ios : SectionIos
  Log : SectionLog
  deriving DecidableEq, Repr

/-- The zero value of `ConfToml` (`var conf ConfToml`). -/
def ConfToml.zero : ConfToml :=
  { Core := { Port := [], WorkerNum := 0, QueueNum := 0, NotificationMax := 0, PusherMax := 0,
              ShutdownTimeout := 0, Pid := [], AllowsEmptyMessage := false }
    Android := { Enabled := false, ApiKey := [], Timeout := 0, KeepAliveTimeout := 0,
                 KeepAliveConns := 0, RetryMax := 0, ServiceAccountKeyPath := [],
                 ProjectId := [] }
    Ios := { Enabled := false, PemCertPath := [], PemKeyPath := [], PemKeyPassphrase := [],
             TokenAuthKeyPath := [], TokenAuthKeyID := [], TokenAuthTeamID := [],
             Sandbox := false, RetryMax := 0, Timeout := 0, KeepAliveTimeout := 0,
             KeepAliveConns := 0, Topic := [] }
    Log := { AccessLog := [], ErrorLog := [], Level := [] } }

/-- `BuildDefaultConf` (`conf.go`, lines 65-105); `numCPU` is what `runtime.NumCPU()` reported. -/
def BuildDefaultConf (numCPU : Int) : ConfToml :=
  let conf := ConfToml.zero
  { Core := { conf.Core with
                Port := ascii "1056"
                WorkerNum := numCPU
                QueueNum := 8192
                NotificationMax := 100
                PusherMax := 0
                ShutdownTimeout := 10
                Pid := ascii ""
                AllowsEmptyMessage := false }
    Android := { conf.Android with
                   ApiKey := ascii ""
                   Enabled := true
                   Timeout := 5
                   KeepAliveTimeout := 90
                   KeepAliveConns := numCPU
                   RetryMax := 1
                   ServiceAccountKeyPath := ascii ""
                   ProjectId := ascii "" }
    Ios := { conf.Ios with
               Enabled := true
               PemCertPath := ascii ""
               PemKeyPath := ascii ""
               TokenAuthKeyPath := ascii ""
               TokenAuthKeyID := ascii ""
               TokenAuthTeamID := ascii ""
               Sandbox := true
               RetryMax := 1
               Timeout := 5
               KeepAliveTimeout := 90
               KeepAliveConns := numCPU
               Topic := ascii "" }
    Log := { conf.Log with
               AccessLog := ascii "stdout"
               ErrorLog := ascii "stderr"
               Level := ascii "error" } }

/-- `(*SectionIos).IsTokenBasedProvider` (`conf.go`, lines 162-164). -/
def SectionIos.IsTokenBasedProvider (s : SectionIos) : Bool :=
  s.TokenAuthKeyPath != [] && s.TokenAuthKeyID != [] && s.TokenAuthTeamID != []

/-- `(*SectionIos).IsCertificateBasedProvider` (`conf.go`, lines 166-168). -/
def SectionIos.IsCertificateBasedProvider (s : SectionIos) : Bool :=
  s.PemCertPath != [] && s.PemKeyPath != []

/-! ## `LoadConf` (`conf.go`, lines 107-117) -/

/-- What `ioutil.ReadFile` and `toml.Unmarshal` do is outside the repository: `LoadConf` is
embedded over the two of them. `readFile` gives the document or the read error; `unmarshal`
takes the document and the target struct and gives the struct as the decoder left it, with the
decoder's error, if any. -/
structure LoadEnv (E : Type) where
  readFile : GoString → Except E GoString
  unmarshal : GoString → ConfToml → ConfToml × Option E

/-- `LoadConf`: read the file, unmarshal it onto the argument (a by-value copy of the caller's
struct) and return that variable, with the error of the step that failed. -/
def LoadConf {E : Type} (env : LoadEnv E) (confGaurun : ConfToml) (confPath : GoString) :
    ConfToml × Option E :=
  match env.readFile confPath with
  | .error err => (confGaurun, some err)
  | .ok doc =>
    match env.unmarshal doc confGaurun with
    | (confGaurun, some err) => (confGaurun, some err)
    | (confGaurun, none) => (confGaurun, none)

/-! ## `gcm.NewClient` (`gcm/client.go`, lines 42-70) -/

/-- The handle stored in `Client.Http`. -/
inductive HttpClient where
  | DefaultClient
  deriving DecidableEq, Repr

/-- `gcm.Client`. -/
structure Client where
  ApiKey : GoString
  URL : GoString
  Http : HttpClient
  deriving DecidableEq, Repr

/-- The three errors of `NewClient`; the last carries the URL and the error of `url.Parse`. -/
inductive NewClientError (E : Type) where
  | missingEndpoint
  | missingAPIKey
  | parseFailed (urlString : GoString) (err : E)
  deriving DecidableEq, Repr

/-- `NewClient`. `urlParse` is the error result of `url.Parse` (`none` for a nil error). -/
def NewClient {E : Type} (urlParse : GoString → Option E) (urlString apiKey : GoString) :
    Option Client × Option (NewClientError E) :=
  if urlString.length = 0 then
    (none, some .missingEndpoint)
  else if apiKey.length = 0 then
    (none, some .missingAPIKey)
  else
    match urlParse urlString with
    | some err => (none, some (.parseFailed urlString err))
    | none => (some { URL := urlString, ApiKey := apiKey, Http := .DefaultClient }, none)

/-! ## `strconv.ParseInt` (Go 1.13 and later: base marks `0b`, `0o`, `0x` and underscores) -/

/-- The `Err` of a `*strconv.NumError`. -/
inductive NumErr where
  | ErrSyntax
  | ErrRange
  | ErrBase
  | ErrBitSize
  deriving DecidableEq, Repr

/-- `lower(c)`: `c | ('x' - 'X')`. -/
def lower (c : Nat) : Nat := c ||| 32

/-- The digit loop of `strconv.ParseUint` over the bytes that are left, with the running value
`n` and the `underscores` flag. An error comes with the value returned beside it. -/
def parseUintLoop (base : Nat) (base0 : Bool) (cutoff maxVal : Nat) :
    GoString → Nat → Bool → Except (Nat × NumErr) (Nat × Bool)
  | [], n, underscores => .ok (n, underscores)
  | c :: cs, n, underscores =>
    if c = 95 ∧ base0 = true then
      parseUintLoop base base0 cutoff maxVal cs n true
    else
      let d? : Option Nat :=
        if 48 ≤ c ∧ c ≤ 57 then some (c - 48)
        else if 97 ≤ lower c ∧ lower c ≤ 122 then some (lower c - 97 + 10)
        else none
      match d? with
      | none => .error (0, .ErrSyntax)
      | some d =>
        if d ≥ base then .error (0, .ErrSyntax)
        else if n ≥ cutoff then .error (maxVal, .ErrRange)
        else
          let n := (n * base) % 2 ^ 64
          let n1 := (n + d) % 2 ^ 64
          if n1 < n ∨ n1 > maxVal then .error (maxVal, .ErrRange)
          else parseUintLoop base base0 cutoff maxVal cs n1 underscores

/-- The scan of `strconv.underscoreOK` over the number proper; `i` is the class of the
previous byte: `'0'` a digit, `'_'` an underscore, `'!'` another byte, `'^'` the start. -/
def underscoreOKLoop (hex : Bool) : GoString → Nat → Bool
  | [], i => i != 95
  | c :: s, i =>
    if (48 ≤ c ∧ c ≤ 57) ∨ (hex = true ∧ 97 ≤ lower c ∧ lower c ≤ 102) then
      underscoreOKLoop hex s 48
    else if c = 95 then
      if i ≠ 48 then false else underscoreOKLoop hex s 95
    else if i = 95 then false
    else underscoreOKLoop hex s 33

/-- `strconv.underscoreOK`: underscores only between digits or between a base mark and a
digit. -/
def underscoreOK (s : GoString) : Bool :=
  let s := match s with
    | 45 :: t => t
    | 43 :: t => t
    | _ => s
  match s with
  | 48 :: c :: t =>
    if lower c = 98 ∨ lower c = 111 ∨ lower c = 120 then
      underscoreOKLoop (lower c = 120) t 48
    else underscoreOKLoop false s 94
  | _ => underscoreOKLoop false s 94

/-- The `switch` on `base` at the head of `strconv.ParseUint`: the base to read in and the
bytes left after a base mark, or `none` for a base that is not valid. -/
def pickBase (s : GoString) (base : Nat) : Option (Nat × GoString) :=
  if 2 ≤ base ∧ base ≤ 36 then some (base, s)
  else if base = 0 then
    match s with
    | 48 :: c :: t =>
      if s.length ≥ 3 ∧ lower c = 98 then some (2, t)
      else if s.length ≥ 3 ∧ lower c = 111 then some (8, t)
      else if s.length ≥ 3 ∧ lower c = 120 then some (16, t)
      else some (8, c :: t)
    | 48 :: t => some (8, t)
    | _ => some (10, s)
  else none

/-- `strconv.ParseUint(s, base, bitSize)`: the value and the error's `Err` (`none` for nil). -/
def ParseUint (s : GoString) (base bitSize : Nat) : Nat × Option NumErr :=
  if s = [] then (0, some .ErrSyntax)
  else
    let base0 := base = 0
    match pickBase s base with
    | none => (0, some .ErrBase)
    | some (b, digits) =>
      if bitSize > 64 then (0, some .ErrBitSize)
      else
        let bitSize := if bitSize = 0 then 64 else bitSize
        let cutoff := (2 ^ 64 - 1) / b + 1
        let maxVal := (2 ^ bitSize - 1) % 2 ^ 64
        match parseUintLoop b base0 cutoff maxVal digits 0 false with
        | .error (v, e) => (v, some e)
        | .ok (n, underscores) =>
          if underscores = true ∧ underscoreOK s = false then (0, some .ErrSyntax)
          else (n, none)

/-- Conversion `int64(un)` of a `uint64`. -/
def toInt64 (un : Nat) : Int :=
  if un % 2 ^ 64 < 2 ^ 63 then (un % 2 ^ 64 : Nat) else (un % 2 ^ 64 : Nat) - (2 ^ 64 : Int)

/-- Negation `-n` of an `int64`, wrapping at the minimum. -/
def negInt64 (n : Int) : Int :=
  if n = -(2 ^ 63 : Int) then n else -n

/-- `strconv.ParseInt(s, base, bitSize)`: the value and the error's `Err` (`none` for nil). -/
def ParseInt (s : GoString) (base bitSize : Nat) : Int × Option NumErr :=
  match s with
  | [] => (0, some .ErrSyntax)
  | c :: t =>
    let neg := c = 45
    let s1 := if c = 43 then t else if c = 45 then t else s
    match ParseUint s1 base bitSize with
    | (_, some .ErrSyntax) => (0, some .ErrSyntax)
    | (_, some .ErrBase) => (0, some .ErrBase)
    | (_, some .ErrBitSize) => (0, some .ErrBitSize)
    | (un, _) =>
      let bitSize := if bitSize = 0 then 64 else bitSize
      let cutoff := (2 ^ (bitSize - 1)) % 2 ^ 64
      if ¬ neg ∧ un ≥ cutoff then (toInt64 (cutoff - 1), some .ErrRange)
      else if neg ∧ un > cutoff then (negInt64 (toInt64 cutoff), some .ErrRange)
      else
        let n := toInt64 un
        (if neg then negInt64 n else n, none)

/-! ## `url.ParseQuery` -/

/-- `url.ishex`. -/
def ishex (c : Nat) : Bool :=
  if 48 ≤ c ∧ c ≤ 57 then true
  else if 97 ≤ c ∧ c ≤ 102 then true
  else if 65 ≤ c ∧ c ≤ 70 then true
  else false

/-- `url.unhex`. -/
def unhex (c : Nat) : Nat :=
  if 48 ≤ c ∧ c ≤ 57 then c - 48
  else if 97 ≤ c ∧ c ≤ 102 then c - 97 + 10
  else if 65 ≤ c ∧ c ≤ 70 then c - 65 + 10
  else 0

/-- The errors `url.ParseQuery` reports: a semicolon in a segment, or an `url.EscapeError`
with the offending bytes. -/
inductive QueryErr where
  | semicolon
  | escape (s : GoString)
  deriving DecidableEq, Repr

/-- First pass of `url.unescape` in query-component mode: the first ill-formed `%` escape,
reported with at most three bytes from the `%` on. -/
def escapeCheck : GoString → Option QueryErr
  | [] => none
  | 37 :: a :: b :: rest =>
    if ishex a = false ∨ ishex b = false then some (.escape [37, a, b]) else escapeCheck rest
  | 37 :: rest => some (.escape (37 :: rest))
  | _ :: rest => escapeCheck rest

/-- Second pass of `url.unescape` in query-component mode: `%XY` becomes one byte and `+` a
space. -/
def unescapeBytes : GoString → GoString
  | [] => []
  | 37 :: a :: b :: rest => ((unhex a <<< 4 ||| unhex b) % 256) :: unescapeBytes rest
  | 43 :: rest => 32 :: unescapeBytes rest
  | c :: rest => c :: unescapeBytes rest

/-- `url.QueryUnescape`. -/
def QueryUnescape (s : GoString) : Except QueryErr GoString :=
  match escapeCheck s with
  | some e => .error e
  | none => if 37 ∉ s ∧ 43 ∉ s then .ok s else .ok (unescapeBytes s)

/-- `strings.Cut(s, sep)` for a one-byte separator: before, after, found. -/
def cut (sep : Nat) : GoString → GoString × GoString × Bool
  | [] => ([], [], false)
  | c :: s =>
    if c = sep then ([], s, true)
    else
      let r := cut sep s
      (c :: r.1, r.2.1, r.2.2)

/-- `url.Values`: the keys with their values, each key once. -/
abbrev Values := List (GoString × List GoString)

/-- The update `m[key] = append(m[key], value)`. -/
def Values.add : Values → GoString → GoString → Values
  | [], key, value => [(key, [value])]
  | (k, vs) :: m, key, value =>
    if k = key then (k, vs ++ [value]) :: m else (k, vs) :: Values.add m key value

/-- The values `key` takes over the iterations of
`for query != "" { key, query, _ = strings.Cut(query, "&"); ... }`. -/
def segments : GoString → List GoString
  | [] => []
  | c :: q =>
    if c = 38 then [] :: segments q
    else
      match segments q with
      | [] => [[c]]
      | k :: ks => (c :: k) :: ks

/-- One iteration of the loop of `url.parseQuery` (Go 1.17 and later, where a semicolon in a
segment is an error), on the map and the error so far: a semicolon overwrites the error, an
escape error is kept only when it is the first. -/
def parseQueryStep (st : Values × Option QueryErr) (key : GoString) : Values × Option QueryErr :=
  if 59 ∈ key then (st.1, some .semicolon)
  else if key = [] then st
  else
    let kv := cut 61 key
    match QueryUnescape kv.1 with
    | .error err1 => (st.1, if st.2 = none then some err1 else st.2)
    | .ok key =>
      match QueryUnescape kv.2.1 with
      | .error err1 => (st.1, if st.2 = none then some err1 else st.2)
      | .ok value => (st.1.add key value, st.2)

/-- `url.ParseQuery`: the map built, and the error of the loop, if any. This is the function
of Go 1.17 and later as it stands before the limit on the number of parameters that the most
recent releases add. -/
def ParseQuery (query : GoString) : Values × Option QueryErr :=
  (segments query).foldl parseQueryStep ([], none)

/-! ## `ConfigPushersHandler` (`conf.go`, lines 119-160) -/

/-- The request, as far as the handler reads it: `r.Method` and `r.URL.RawQuery`. -/
structure Request where
  Method : GoString
  RawQuery : GoString
  deriving DecidableEq, Repr

/-- What the handler hands to `sendResponse`. -/
structure Response where
  code : Nat
  msg : GoString
  deriving DecidableEq, Repr

/-- `http.StatusOK`. -/
def StatusOK : Nat := 200

/-- `http.StatusBadRequest`. -/
def StatusBadRequest : Nat := 400

/-- Modelled from the spec: `sendResponse(w, msg, code)`, defined in a file of the repository
that is not among the sources, answers the request with status `code` and the message `msg`
as its body. -/
def sendResponse (msg : GoString) (code : Nat) : Response :=
  { code := code, msg := msg }

/-- An error handed to `LogError.Error`: the one from `url.ParseQuery`, or the `NumError` of
`strconv.ParseInt` with its input and its `Err`. -/
inductive LogEntry where
  | query (err : QueryErr)
  | num (input : GoString) (err : NumErr)
  deriving DecidableEq, Repr

/-- The handler's effects: the global `ConfGaurun` afterwards, the response sent and the
errors logged. -/
structure HandlerResult where
  conf : ConfToml
  response : Response
  logged : List LogEntry
  deriving DecidableEq, Repr

/-- The loop `for k, v := range values { if k == "max" { in = v[0]; break } }`, from
`in := ""`. Keys are unique, so the order of the iteration does not matter; `v[0]` exists
because `url.ParseQuery` only stores appended slices. -/
def rangeMax : Values → GoString
  | [] => []
  | (k, v) :: rest => if k = ascii "max" then v.headD [] else rangeMax rest

/-- `ConfigPushersHandler`, run on the current `ConfGaurun`. -/
def ConfigPushersHandler (ConfGaurun : ConfToml) (r : Request) : HandlerResult :=
  if r.Method ≠ ascii "PUT" then
    ⟨ConfGaurun, sendResponse (ascii "method must be PUT") StatusBadRequest, []⟩
  else
    match ParseQuery r.RawQuery with
    | (_, some err) =>
      ⟨ConfGaurun, sendResponse (ascii "url parameters could not be parsed") StatusBadRequest,
        [.query err]⟩
    | (values, none) =>
      let input := rangeMax values
      if input = [] then
        ⟨ConfGaurun, sendResponse (ascii "malformed value") StatusBadRequest, []⟩
      else
        match ParseInt input 0 64 with
        | (_, some err) =>
          ⟨ConfGaurun, sendResponse (ascii "malformed value") StatusBadRequest,
            [.num input err]⟩
        | (newPusherMax, none) =>
          if newPusherMax < 0 then
            ⟨ConfGaurun, sendResponse (ascii "malformed value") StatusBadRequest, []⟩
          else
            ⟨{ ConfGaurun with Core := { ConfGaurun.Core with PusherMax := newPusherMax } },
              sendResponse (ascii "ok") StatusOK, []⟩

/-! ## Vocabulary of the properties -/

/-- The canonical decimal numeral of `n`: most significant digit first, no leading zero, `0`
for zero. -/
def decimal (n : Nat) : GoString :=
  if n = 0 then [48] else ((Nat.digits 10 n).reverse).map (fun d => d + 48)

/-- A digit of base `b` (at most 16), in either case. -/
def isDigit (b c : Nat) : Prop :=
  (48 ≤ c ∧ c ≤ 57 ∧ c - 48 < b) ∨ (97 ≤ c ∧ c ≤ 102 ∧ c - 87 < b) ∨
    (65 ≤ c ∧ c ≤ 70 ∧ c - 55 < b)

instance (b c : Nat) : Decidable (isDigit b c) := by
  unfold isDigit
  infer_instance

/-- The value of a digit. -/
def digitValue (c : Nat) : Nat :=
  if c ≤ 57 then c - 48 else if 97 ≤ c then c - 87 else c - 55

/-- The number a string of digits denotes in base `b`, on top of `acc`. -/
def numeralValue (b : Nat) (ds : GoString) (acc : Nat) : Nat :=
  ds.foldl (fun n c => n * b + digitValue c) acc

/-- The invariant of the configuration: workers and queue positive, pusher cap not negative. -/
def Inv (c : ConfToml) : Prop :=
  c.Core.WorkerNum > 0 ∧ c.Core.QueueNum > 0 ∧ c.Core.PusherMax ≥ 0

/-- The configuration after the handler has served the requests in order. -/
def serve (c : ConfToml) (rs : List Request) : ConfToml :=
  rs.foldl (fun c r => (ConfigPushersHandler c r).conf) c

/-! ## `toml.Unmarshal` (go-toml v1) on a fragment of TOML

`LoadConf` is embedded over any decoder. To run it on a document, the decoder of go-toml v1
is embedded on a fragment of TOML: lines separated by a line feed, each one empty, a table
header `[name]` or a pair `key = value`, with names and keys made of lower-case letters and
underscores and the value a basic string of printable ASCII without escapes, a decimal
integer without sign in the `int64` range, or `true` or `false`. go-toml first builds the
tree of the whole document, and fails there, with nothing written, on a document that is not
TOML; it then fills the target struct in place, field by field in the order of the struct,
and stops at the first value it cannot convert to the type of its field. -/

/-- A value of the fragment. -/
inductive TomlValue where
  | str (s : GoString)
  | int (n : Int)
  | bool (b : Bool)
  deriving DecidableEq, Repr

/-- A line of the fragment. -/
inductive TomlLine where
  | blank
  | header (name : GoString)
  | pair (key : GoString) (value : TomlValue)
  deriving DecidableEq, Repr

/-- The keys of a table with their values, in the order of the document. -/
abbrev TomlTable := List (GoString × TomlValue)

/-- The tables of a document, in the order of the document. -/
abbrev TomlTree := List (GoString × TomlTable)

/-- The errors of `LoadConf` on the embedded decoder: the one of `ioutil.ReadFile`; a document
outside the fragment, for which no tree is built (it is not TOML, or it is TOML that the
embedding does not cover); a value that cannot be converted to the type of its field. -/
inductive LoadErr where
  | notExist
  | rejected
  | convert (key : GoString)
  deriving DecidableEq, Repr

/-- The lines of a document. -/
def splitLines : GoString → List GoString
  | [] => [[]]
  | c :: s =>
    if c = 10 then [] :: splitLines s
    else
      match splitLines s with
      | [] => [[c]]
      | l :: ls => (c :: l) :: ls

/-- A byte of a table name or key: a lower-case letter or an underscore. -/
def isKeyByte (c : Nat) : Bool := (97 ≤ c ∧ c ≤ 122) ∨ c = 95

/-- A byte of a basic string: printable ASCII other than the quote and the backslash. -/
def isStringByte (c : Nat) : Bool := 32 ≤ c ∧ c ≤ 126 ∧ c ≠ 34 ∧ c ≠ 92

/-- The value written on the right of a pair. -/
def parseValue (s : GoString) : Option TomlValue :=
  if s = ascii "true" then some (.bool true)
  else if s = ascii "false" then some (.bool false)
  else
    match s with
    | [] => none
    | 34 :: rest =>
      match rest.reverse with
      | 34 :: body => if body.all isStringByte then some (.str body.reverse) else none
      | _ => none
    | c :: rest =>
      if (c :: rest).all (fun d => 48 ≤ d ∧ d ≤ 57) ∧ (c ≠ 48 ∨ rest = []) ∧
          numeralValue 10 (c :: rest) 0 ≤ 2 ^ 63 - 1 then
        some (.int (numeralValue 10 (c :: rest) 0))
      else none

/-- One line of the document. -/
def parseLine (line : GoString) : Option TomlLine :=
  match line with
  | [] => some .blank
  | 91 :: rest =>
    match rest.reverse with
    | 93 :: name =>
      if name ≠ [] ∧ name.all isKeyByte then some (.header name.reverse) else none
    | _ => none
  | _ =>
    match line.dropWhile isKeyByte with
    | 32 :: 61 :: 32 :: v =>
      if line.takeWhile isKeyByte = [] then none
      else (parseValue v).map (.pair (line.takeWhile isKeyByte))
    | _ => none

/-- The tree with one more line: a header opens a table that is not there yet, a pair goes to
the table opened last under a key that table does not hold yet. -/
def addLine (tree : TomlTree) (l : TomlLine) : Option TomlTree :=
  match l with
  | .blank => some tree
  | .header name => if (tree.lookup name).isSome then none else some (tree ++ [(name, [])])
  | .pair key value =>
    match tree.reverse with
    | [] => none
    | (name, t) :: before =>
      if (t.lookup key).isSome then none
      else some (before.reverse ++ [(name, t ++ [(key, value)])])

/-- The tree of a document of the fragment; `none` for any other document. -/
def parseToml (doc : GoString) : Option TomlTree :=
  (splitLines doc).foldl
    (fun acc line => acc.bind (fun tree => (parseLine line).bind (addLine tree))) (some [])

/-- Decoding of a string field, after the fields before it: nothing once a field has failed,
nothing for a key the table does not hold, the string written for a string, and a conversion
error for an integer or a boolean. -/
def decodeString {σ : Type} (t : TomlTable) (key : String) (set : σ → GoString → σ)
    (st : σ × Option LoadErr) : σ × Option LoadErr :=
  match st.2 with
  | some _ => st
  | none =>
    match t.lookup (ascii key) with
    | none => st
    | some (.str v) => (set st.1 v, none)
    | some _ => (st.1, some (.convert (ascii key)))

/-- Decoding of an `int64` or `int` field, after the fields before it. -/
def decodeInt {σ : Type} (t : TomlTable) (key : String) (set : σ → Int → σ)
    (st : σ × Option LoadErr) : σ × Option LoadErr :=
  match st.2 with
  | some _ => st
  | none =>
    match t.lookup (ascii key) with
    | none => st
    | some (.int v) => (set st.1 v, none)
    | some _ => (st.1, some (.convert (ascii key)))

/-- Decoding of a `bool` field, after the fields before it. -/
def decodeBool {σ : Type} (t : TomlTable) (key : String) (set : σ → Bool → σ)
    (st : σ × Option LoadErr) : σ × Option LoadErr :=
  match st.2 with
  | some _ => st
  | none =>
    match t.lookup (ascii key) with
    | none => st
    | some (.bool v) => (set st.1 v, none)
    | some _ => (st.1, some (.convert (ascii key)))

/-- The fields of `SectionCore`, in the order of the struct, with their `toml` tags. -/
def decodeCore (t : TomlTable) (s : SectionCore) : SectionCore × Option LoadErr :=
  (s, none)
    |> decodeString t "port" (fun s v => { s with Port := v })
    |> decodeInt t "workers" (fun s v => { s with WorkerNum := v })
    |> decodeInt t "queues" (fun s v => { s with QueueNum := v })
    |> decodeInt t "notification_max" (fun s v => { s with NotificationMax := v })
    |> decodeInt t "pusher_max" (fun s v => { s with PusherMax := v })
    |> decodeInt t "shutdown_timeout" (fun s v => { s with ShutdownTimeout := v })
    |> decodeString t "pid" (fun s v => { s with Pid := v })
    |> decodeBool t "allows_empty_message" (fun s v => { s with AllowsEmptyMessage := v })

/-- The fields of `SectionAndroid`, in the order of the struct, with their `toml` tags. -/
def decodeAndroid (t : TomlTable) (s : SectionAndroid) : SectionAndroid × Option LoadErr :=
  (s, none)
    |> decodeBool t "enabled" (fun s v => { s with Enabled := v })
    |> decodeString t "apikey" (fun s v => { s with ApiKey := v })
    |> decodeInt t "timeout" (fun s v => { s with Timeout := v })
    |> decodeInt t "keepalive_timeout" (fun s v => { s with KeepAliveTimeout := v })
    |> decodeInt t "keepalive_conns" (fun s v => { s with KeepAliveConns := v })
    |> decodeInt t "retry_max" (fun s v => { s with RetryMax := v })
    |> decodeString t "service_account_key_path"
        (fun s v => { s with ServiceAccountKeyPath := v })
    |> decodeString t "project_id" (fun s v => { s with ProjectId := v })

/-- The fields of `SectionIos`, in the order of the struct, with their `toml` tags. -/
def decodeIos (t : TomlTable) (s : SectionIos) : SectionIos × Option LoadErr :=
  (s, none)
    |> decodeBool t "enabled" (fun s v => { s with Enabled := v })
    |> decodeString t "pem_cert_path" (fun s v => { s with PemCertPath := v })
    |> decodeString t "pem_key_path" (fun s v => { s with PemKeyPath := v })
    |> decodeString t "pem_key_passphrase" (fun s v => { s with PemKeyPassphrase := v })
    |> decodeString t "token_auth_key_path" (fun s v => { s with TokenAuthKeyPath := v })
    |> decodeString t "token_auth_key_id" (fun s v => { s with TokenAuthKeyID := v })
    |> decodeString t "token_auth_team_id" (fun s v => { s with TokenAuthTeamID := v })
    |> decodeBool t "sandbox" (fun s v => { s with Sandbox := v })
    |> decodeInt t "retry_max" (fun s v => { s with RetryMax := v })
    |> decodeInt t "timeout" (fun s v => { s with Timeout := v })
    |> decodeInt t "keepalive_timeout" (fun s v => { s with KeepAliveTimeout := v })
    |> decodeInt t "keepalive_conns" (fun s v => { s with KeepAliveConns := v })
    |> decodeString t "topic" (fun s v => { s with Topic := v })

/-- The fields of `SectionLog`, in the order of the struct, with their `toml` tags. -/
def decodeLog (t : TomlTable) (s : SectionLog) : SectionLog × Option LoadErr :=
  (s, none)
    |> decodeString t "access_log" (fun s v => { s with AccessLog := v })
    |> decodeString t "error_log" (fun s v => { s with ErrorLog := v })
    |> decodeString t "level" (fun s v => { s with Level := v })

/-- Decoding of a section of `ConfToml`, after the sections before it: nothing once a section
has failed or when the document has no such table; otherwise the section as its decoding
left it, with its error. -/
def decodeSection {σ : Type} (tree : TomlTree) (name : String)
    (decode : TomlTable → σ → σ × Option LoadErr) (get : ConfToml → σ)
    (set : ConfToml → σ → ConfToml) (st : ConfToml × Option LoadErr) :
    ConfToml × Option LoadErr :=
  match st.2 with
  | some _ => st
  | none =>
    match tree.lookup (ascii name) with
    | none => st
    | some t => (set st.1 (decode t (get st.1)).1, (decode t (get st.1)).2)

/-- `toml.Unmarshal(doc, &conf)` on the fragment: the struct as the decoder leaves it, and the
error. A document outside the fragment is rejected with nothing written. -/
def tomlUnmarshal (doc : GoString) (conf : ConfToml) : ConfToml × Option LoadErr :=
  match parseToml doc with
  | none => (conf, some .rejected)
  | some tree =>
    (conf, none)
      |> decodeSection tree "core" decodeCore (fun c => c.Core) (fun c s => { c with Core := s })
      |> decodeSection tree "android" decodeAndroid (fun c => c.Android)
          (fun c s => { c with Android := s })
      |> decodeSection tree "ios" decodeIos (fun c => c.Ios) (fun c s => { c with Ios := s })
      |> decodeSection tree "log" decodeLog (fun c => c.Log) (fun c s => { c with Log := s })

/-- A basic string: the bytes between two quotes. -/
def quoted (s : GoString) : GoString := 34 :: s ++ [34]

/-- The document made of the given lines, each ended by a line feed. -/
def document (lines : List GoString) : GoString :=
  (lines.map (fun l => l ++ [10])).flatten

/-- A well-formed TOML document whose second key has a string where `workers` is an
integer. -/
def illTypedDoc : GoString :=
  document [ascii "[core]", ascii "port = " ++ quoted (ascii "80"),
    ascii "workers = " ++ quoted (ascii "four")]

/-- A well-formed TOML document that overrides the port and the number of workers. -/
def wellTypedDoc : GoString :=
  document [ascii "[core]", ascii "port = " ++ quoted (ascii "80"), ascii "workers = 8"]

/-- A document that is not TOML. -/
def brokenDoc : GoString := ascii "[core] port = 80, workers = four"

/-- Three files on disk, read by `ioutil.ReadFile`, and the decoder of go-toml. -/
def tomlEnv : LoadEnv LoadErr :=
  { readFile := fun path =>
      if path = ascii "ill_typed.toml" then .ok illTypedDoc
      else if path = ascii "well_typed.toml" then .ok wellTypedDoc
      else if path = ascii "broken.toml" then .ok brokenDoc
      else .error .notExist
    unmarshal := tomlUnmarshal }

/-! ## iOS credential predicates -/

/-- C6. With only the certificate paths filled in, `IsCertificateBasedProvider` holds and
`IsTokenBasedProvider` does not; with only the three token fields filled in it is the other
way round; with all five fields empty neither holds. All other fields are arbitrary. -/
theorem ios_provider_selection (s : SectionIos) :
    (s.PemCertPath ≠ [] → s.PemKeyPath ≠ [] → s.TokenAuthKeyPath = [] →
        s.TokenAuthKeyID = [] → s.TokenAuthTeamID = [] →
        s.IsCertificateBasedProvider = true ∧ s.IsTokenBasedProvider = false) ∧
    (s.TokenAuthKeyPath ≠ [] → s.TokenAuthKeyID ≠ [] → s.TokenAuthTeamID ≠ [] →
        s.PemCertPath = [] → s.PemKeyPath = [] →
        s.IsTokenBasedProvider = true ∧ s.IsCertificateBasedProvider = false) ∧
    (s.PemCertPath = [] → s.PemKeyPath = [] → s.TokenAuthKeyPath = [] →
        s.TokenAuthKeyID = [] → s.TokenAuthTeamID = [] →
        s.IsTokenBasedProvider = false ∧ s.IsCertificateBasedProvider = false) := by
  refine ⟨?_, ?_, ?_⟩
  · intro h1 h2 h3 h4 h5
    simp [SectionIos.IsCertificateBasedProvider, SectionIos.IsTokenBasedProvider, h1, h2, h3]
  · intro h1 h2 h3 h4 h5
    simp [SectionIos.IsCertificateBasedProvider, SectionIos.IsTokenBasedProvider, h1, h2, h3, h4]
  · intro h1 h2 h3 h4 h5
    simp [SectionIos.IsCertificateBasedProvider, SectionIos.IsTokenBasedProvider, h1, h3]

/-- C6 at three sections: the default one with a certificate pair, with a token triple, and
as it is. -/
theorem ios_provider_selection_witness :
    (({ (BuildDefaultConf 4).Ios with
          PemCertPath := ascii "cert.pem", PemKeyPath := ascii "key.pem",
          PemKeyPassphrase := ascii "secret" } : SectionIos).IsCertificateBasedProvider = true ∧
      ({ (BuildDefaultConf 4).Ios with
          PemCertPath := ascii "cert.pem", PemKeyPath := ascii "key.pem",
          PemKeyPassphrase := ascii "secret" } : SectionIos).IsTokenBasedProvider = false) ∧
    (({ (BuildDefaultConf 4).Ios with
          TokenAuthKeyPath := ascii "key.p8", TokenAuthKeyID := ascii "ABC123",
          TokenAuthTeamID := ascii "TEAM01" } : SectionIos).IsTokenBasedProvider = true ∧
      ({ (BuildDefaultConf 4).Ios with
          TokenAuthKeyPath := ascii "key.p8", TokenAuthKeyID := ascii "ABC123",
          TokenAuthTeamID := ascii "TEAM01" } : SectionIos).IsCertificateBasedProvider = false) ∧
    ((BuildDefaultConf 4).Ios.IsTokenBasedProvider = false ∧
      (BuildDefaultConf 4).Ios.IsCertificateBasedProvider = false) :=
  ⟨(ios_provider_selection _).1 (by decide) (by decide) rfl rfl rfl,
   (ios_provider_selection _).2.1 (by decide) (by decide) (by decide) rfl rfl,
   (ios_provider_selection _).2.2 rfl rfl rfl rfl rfl⟩

/-- C7, as stated, fails: a section with all five credential fields filled in satisfies both
predicates. -/
theorem ios_both_providers_counterexample :
    ({ (BuildDefaultConf 4).Ios with
        PemCertPath := ascii "cert.pem", PemKeyPath := ascii "key.pem",
        TokenAuthKeyPath := ascii "key.p8", TokenAuthKeyID := ascii "ABC123",
        TokenAuthTeamID := ascii "TEAM01" } : SectionIos).IsTokenBasedProvider = true ∧
    ({ (BuildDefaultConf 4).Ios with
        PemCertPath := ascii "cert.pem", PemKeyPath := ascii "key.pem",
        TokenAuthKeyPath := ascii "key.p8", TokenAuthKeyID := ascii "ABC123",
        TokenAuthTeamID := ascii "TEAM01" } : SectionIos).IsCertificateBasedProvider = true := by
  decide

/-- C7, amended. The two predicates are independent presence checks: both hold exactly when
all five credential fields are non-empty, so they are never both true of a section in which
one of the two certificate paths or one of the three token fields is empty. -/
theorem ios_both_providers_iff (s : SectionIos) :
    (s.IsTokenBasedProvider = true ∧ s.IsCertificateBasedProvider = true) ↔
      (s.PemCertPath ≠ [] ∧ s.PemKeyPath ≠ [] ∧ s.TokenAuthKeyPath ≠ [] ∧
        s.TokenAuthKeyID ≠ [] ∧ s.TokenAuthTeamID ≠ []) := by
  simp only [SectionIos.IsCertificateBasedProvider, SectionIos.IsTokenBasedProvider,
    Bool.and_eq_true, bne_iff_ne, ne_eq]
  tauto

/-! ## `NewClient` -/

/-- C8. Whatever `url.Parse` does, `NewClient` returns an error, and no client, exactly when
the URL is empty, the API key is empty or `url.Parse` rejects the URL; in every other case it
returns no error and a client holding the URL and the API key as given. -/
theorem newClient_error_iff {E : Type} (urlParse : GoString → Option E)
    (urlString apiKey : GoString) :
    (((NewClient urlParse urlString apiKey).2 ≠ none ∧
        (NewClient urlParse urlString apiKey).1 = none) ↔
      (urlString = [] ∨ apiKey = [] ∨ urlParse urlString ≠ none)) ∧
    (¬ (urlString = [] ∨ apiKey = [] ∨ urlParse urlString ≠ none) →
      (NewClient urlParse urlString apiKey).2 = none ∧
      ∃ c, (NewClient urlParse urlString apiKey).1 = some c ∧
        c.URL = urlString ∧ c.ApiKey = apiKey) := by
  unfold NewClient
  by_cases h1 : urlString = []
  · simp [h1]
  · by_cases h2 : apiKey = []
    · simp [h1, h2]
    · cases h3 : urlParse urlString with
      | none => simp [h1, h2, h3]
      | some e => simp [h1, h2, h3]

/-! ## `LoadConf` -/

/-- C9, as stated, fails. The file `ill_typed.toml` is read, and its document is well-formed
TOML: `[core]`, `port = "80"`, `workers = "four"`. The decoder writes `core.port` into the
struct `LoadConf` handed it, then fails on the string given for `workers`, and `LoadConf`
returns that struct with the error: a non-nil error with a configuration whose port is `80`
where the base has `1056`. -/
theorem loadConf_partial_counterexample :
    tomlEnv.readFile (ascii "ill_typed.toml") = .ok illTypedDoc ∧
    parseToml illTypedDoc =
      some [(ascii "core", [(ascii "port", .str (ascii "80")),
                            (ascii "workers", .str (ascii "four"))])] ∧
    (LoadConf tomlEnv (BuildDefaultConf 4) (ascii "ill_typed.toml")).2 =
      some (.convert (ascii "workers")) ∧
    (LoadConf tomlEnv (BuildDefaultConf 4) (ascii "ill_typed.toml")).1.Core.Port = ascii "80" ∧
    (BuildDefaultConf 4).Core.Port = ascii "1056" ∧
    (LoadConf tomlEnv (BuildDefaultConf 4) (ascii "ill_typed.toml")).1 ≠ BuildDefaultConf 4 :=
  ⟨rfl, by decide, by decide, by decide, by decide, by decide⟩

/-- C9, amended. When the file cannot be read, `LoadConf` returns the read error and the base
unchanged; when the decoder fails, it returns the decoder's error and the struct as the
decoder left it; and it returns a nil error only when the file was read and the decoder took
the whole document onto the base without error, the result being the struct the decoder
filled. -/
theorem loadConf_outcomes {E : Type} (env : LoadEnv E) (base : ConfToml) (path : GoString) :
    (∀ e, env.readFile path = .error e → LoadConf env base path = (base, some e)) ∧
    (∀ doc c e, env.readFile path = .ok doc → env.unmarshal doc base = (c, some e) →
      LoadConf env base path = (c, some e)) ∧
    ((LoadConf env base path).2 = none →
      ∃ doc, env.readFile path = .ok doc ∧
        env.unmarshal doc base = ((LoadConf env base path).1, none)) := by
  unfold LoadConf
  refine ⟨?_, ?_, ?_⟩
  · intro e h
    simp [h]
  · intro doc c e h1 h2
    simp [h1, h2]
  · cases h1 : env.readFile path with
    | error e => simp
    | ok doc =>
      rcases h2 : env.unmarshal doc base with ⟨c, _ | e⟩
      · simp [h2]
      · simp [h2]

/-- C9, amended, on the three files of `tomlEnv` and a path with no file: a read error and a
document that is not TOML leave the base as it is, and the well-typed document is the one case
with a nil error. -/
theorem loadConf_outcomes_witness :
    LoadConf tomlEnv (BuildDefaultConf 4) (ascii "missing.toml") =
      (BuildDefaultConf 4, some .notExist) ∧
    LoadConf tomlEnv (BuildDefaultConf 4) (ascii "broken.toml") =
      (BuildDefaultConf 4, some .rejected) ∧
    LoadConf tomlEnv (BuildDefaultConf 4) (ascii "ill_typed.toml") =
      ({ BuildDefaultConf 4 with
          Core := { (BuildDefaultConf 4).Core with Port := ascii "80" } },
        some (.convert (ascii "workers"))) ∧
    (∃ doc, tomlEnv.readFile (ascii "well_typed.toml") = .ok doc ∧
      tomlEnv.unmarshal doc (BuildDefaultConf 4) =
        ({ BuildDefaultConf 4 with
            Core := { (BuildDefaultConf 4).Core with Port := ascii "80", WorkerNum := 8 } },
          none)) :=
  ⟨(loadConf_outcomes tomlEnv (BuildDefaultConf 4) (ascii "missing.toml")).1 .notExist rfl,
   (loadConf_outcomes tomlEnv (BuildDefaultConf 4) (ascii "broken.toml")).2.1 brokenDoc
     (BuildDefaultConf 4) .rejected rfl (by decide),
   (loadConf_outcomes tomlEnv (BuildDefaultConf 4) (ascii "ill_typed.toml")).2.1 illTypedDoc
     _ (.convert (ascii "workers")) rfl (by decide),
   (by
     obtain ⟨doc, h1, h2⟩ :=
       (loadConf_outcomes tomlEnv (BuildDefaultConf 4) (ascii "well_typed.toml")).2.2
         (by decide)
     refine ⟨doc, h1, h2.trans ?_⟩
     decide)⟩

/-! ## The paths of `ConfigPushersHandler` -/

/-- The configuration with the pusher cap replaced. -/
theorem setPusherMax_eq (c : ConfToml) :
    ({ c with Core := { c.Core with PusherMax := c.Core.PusherMax } } : ConfToml) = c := rfl

/-- Every run of the handler takes one of its six paths. -/
theorem handler_paths (c : ConfToml) (r : Request) :
    (r.Method ≠ ascii "PUT" ∧
      ConfigPushersHandler c r =
        ⟨c, ⟨StatusBadRequest, ascii "method must be PUT"⟩, []⟩) ∨
    (r.Method = ascii "PUT" ∧ ∃ err, (ParseQuery r.RawQuery).2 = some err ∧
      ConfigPushersHandler c r =
        ⟨c, ⟨StatusBadRequest, ascii "url parameters could not be parsed"⟩, [.query err]⟩) ∨
    (r.Method = ascii "PUT" ∧ (ParseQuery r.RawQuery).2 = none ∧
      rangeMax (ParseQuery r.RawQuery).1 = [] ∧
      ConfigPushersHandler c r = ⟨c, ⟨StatusBadRequest, ascii "malformed value"⟩, []⟩) ∨
    (r.Method = ascii "PUT" ∧ (ParseQuery r.RawQuery).2 = none ∧
      rangeMax (ParseQuery r.RawQuery).1 ≠ [] ∧
      ∃ err, (ParseInt (rangeMax (ParseQuery r.RawQuery).1) 0 64).2 = some err ∧
      ConfigPushersHandler c r =
        ⟨c, ⟨StatusBadRequest, ascii "malformed value"⟩,
          [.num (rangeMax (ParseQuery r.RawQuery).1) err]⟩) ∨
    (r.Method = ascii "PUT" ∧ (ParseQuery r.RawQuery).2 = none ∧
      rangeMax (ParseQuery r.RawQuery).1 ≠ [] ∧
      (ParseInt (rangeMax (ParseQuery r.RawQuery).1) 0 64).2 = none ∧
      (ParseInt (rangeMax (ParseQuery r.RawQuery).1) 0 64).1 < 0 ∧
      ConfigPushersHandler c r = ⟨c, ⟨StatusBadRequest, ascii "malformed value"⟩, []⟩) ∨
    (r.Method = ascii "PUT" ∧ (ParseQuery r.RawQuery).2 = none ∧
      rangeMax (ParseQuery r.RawQuery).1 ≠ [] ∧
      (ParseInt (rangeMax (ParseQuery r.RawQuery).1) 0 64).2 = none ∧
      0 ≤ (ParseInt (rangeMax (ParseQuery r.RawQuery).1) 0 64).1 ∧
      ConfigPushersHandler c r =
        ⟨{ c with Core := { c.Core with
            PusherMax := (ParseInt (rangeMax (ParseQuery r.RawQuery).1) 0 64).1 } },
          ⟨StatusOK, ascii "ok"⟩, []⟩) := by
  unfold ConfigPushersHandler sendResponse
  by_cases hm : r.Method = ascii "PUT"
  · rcases hq : ParseQuery r.RawQuery with ⟨values, _ | qerr⟩
    · by_cases hin : rangeMax values = []
      · simp [hm, hin]
      · rcases hp : ParseInt (rangeMax values) 0 64 with ⟨v, _ | nerr⟩
        · by_cases hv : v < 0
          · simp [hm, hin, hp, hv]
          · simp [hm, hin, hp, hv, not_lt.mp hv]
        · simp [hm, hin, hp]
    · simp [hm]
  · simp [hm]

/-! ## Responses, frame and invariant of the handler -/

/-- C3, as stated, fails: a PUT request whose query has a broken percent escape is answered
with status 400 and the message "url parameters could not be parsed", which is none of the
three responses of the claim. -/
theorem handler_fourth_response_counterexample :
    (ConfigPushersHandler (BuildDefaultConf 4) ⟨ascii "PUT", ascii "max=%zz"⟩).response =
      ⟨400, ascii "url parameters could not be parsed"⟩ ∧
    (ConfigPushersHandler (BuildDefaultConf 4) ⟨ascii "PUT", ascii "max=%zz"⟩).response ≠
      ⟨200, ascii "ok"⟩ ∧
    (ConfigPushersHandler (BuildDefaultConf 4) ⟨ascii "PUT", ascii "max=%zz"⟩).response ≠
      ⟨400, ascii "method must be PUT"⟩ ∧
    (ConfigPushersHandler (BuildDefaultConf 4) ⟨ascii "PUT", ascii "max=%zz"⟩).response ≠
      ⟨400, ascii "malformed value"⟩ := by
  decide

/-- C3, amended. For every request the response is one of exactly four: status 200 with
"ok", status 400 with "method must be PUT", status 400 with "malformed value", or status 400
with "url parameters could not be parsed"; the last is the answer exactly to the PUT requests
whose raw query `url.ParseQuery` rejects. -/
theorem handler_responses (c : ConfToml) (r : Request) :
    ((ConfigPushersHandler c r).response = ⟨200, ascii "ok"⟩ ∨
      (ConfigPushersHandler c r).response = ⟨400, ascii "method must be PUT"⟩ ∨
      (ConfigPushersHandler c r).response = ⟨400, ascii "malformed value"⟩ ∨
      (ConfigPushersHandler c r).response = ⟨400, ascii "url parameters could not be parsed"⟩) ∧
    ((ConfigPushersHandler c r).response = ⟨400, ascii "url parameters could not be parsed"⟩ ↔
      (r.Method = ascii "PUT" ∧ (ParseQuery r.RawQuery).2 ≠ none)) := by
  have d1 : (⟨StatusBadRequest, ascii "method must be PUT"⟩ : Response) ≠
      ⟨400, ascii "url parameters could not be parsed"⟩ := by decide
  have d2 : (⟨StatusBadRequest, ascii "malformed value"⟩ : Response) ≠
      ⟨400, ascii "url parameters could not be parsed"⟩ := by decide
  have d3 : (⟨StatusOK, ascii "ok"⟩ : Response) ≠
      ⟨400, ascii "url parameters could not be parsed"⟩ := by decide
  rcases handler_paths c r with h | h | h | h | h | h
  · obtain ⟨hm, h⟩ := h
    rw [h]
    exact ⟨Or.inr (Or.inl rfl), ⟨fun e => absurd e d1, fun e => absurd e.1 hm⟩⟩
  · obtain ⟨hm, err, he, h⟩ := h
    rw [h]
    exact ⟨Or.inr (Or.inr (Or.inr rfl)), ⟨fun _ => ⟨hm, by simp [he]⟩, fun _ => rfl⟩⟩
  · obtain ⟨hm, he, _, h⟩ := h
    rw [h]
    exact ⟨Or.inr (Or.inr (Or.inl rfl)), ⟨fun e => absurd e d2, fun e => absurd he e.2⟩⟩
  · obtain ⟨hm, he, _, _, _, h⟩ := h
    rw [h]
    exact ⟨Or.inr (Or.inr (Or.inl rfl)), ⟨fun e => absurd e d2, fun e => absurd he e.2⟩⟩
  · obtain ⟨hm, he, _, _, _, h⟩ := h
    rw [h]
    exact ⟨Or.inr (Or.inr (Or.inl rfl)), ⟨fun e => absurd e d2, fun e => absurd he e.2⟩⟩
  · obtain ⟨hm, he, _, _, _, h⟩ := h
    rw [h]
    exact ⟨Or.inl rfl, ⟨fun e => absurd e d3, fun e => absurd he e.2⟩⟩

/-- C4. After the handler the configuration differs from the one before in no field other
than `Core.PusherMax`, and when the response status is not 200 it is the one before,
`Core.PusherMax` included. -/
theorem handler_frame (c : ConfToml) (r : Request) :
    (ConfigPushersHandler c r).conf =
      { c with Core := { c.Core with
          PusherMax := (ConfigPushersHandler c r).conf.Core.PusherMax } } ∧
    ((ConfigPushersHandler c r).response.code ≠ 200 → (ConfigPushersHandler c r).conf = c) := by
  rcases handler_paths c r with h | h | h | h | h | h
  · rw [h.2]
    exact ⟨rfl, fun _ => rfl⟩
  · obtain ⟨_, err, _, h⟩ := h
    rw [h]
    exact ⟨rfl, fun _ => rfl⟩
  · rw [h.2.2.2]
    exact ⟨rfl, fun _ => rfl⟩
  · obtain ⟨_, _, _, err, _, h⟩ := h
    rw [h]
    exact ⟨rfl, fun _ => rfl⟩
  · rw [h.2.2.2.2.2]
    exact ⟨rfl, fun _ => rfl⟩
  · rw [h.2.2.2.2.2]
    exact ⟨rfl, fun hne => absurd rfl hne⟩

/-- C4 at two requests on the default configuration: an accepted one changes the cap and
nothing else, a rejected one changes nothing. -/
theorem handler_frame_witness :
    (ConfigPushersHandler (BuildDefaultConf 4) ⟨ascii "PUT", ascii "max=5"⟩).conf =
      { BuildDefaultConf 4 with Core := { (BuildDefaultConf 4).Core with PusherMax := 5 } } ∧
    (ConfigPushersHandler (BuildDefaultConf 4) ⟨ascii "PUT", ascii "max=-1"⟩).conf =
      BuildDefaultConf 4 :=
  ⟨(handler_frame (BuildDefaultConf 4) ⟨ascii "PUT", ascii "max=5"⟩).1.trans (by decide),
   (handler_frame (BuildDefaultConf 4) ⟨ascii "PUT", ascii "max=-1"⟩).2 (by decide)⟩

/-- The handler keeps the invariant. -/
theorem handler_preserves_Inv (c : ConfToml) (r : Request) (h : Inv c) :
    Inv (ConfigPushersHandler c r).conf := by
  rcases handler_paths c r with p | p | p | p | p | p
  · rw [p.2]
    exact h
  · obtain ⟨_, err, _, p⟩ := p
    rw [p]
    exact h
  · rw [p.2.2.2]
    exact h
  · obtain ⟨_, _, _, err, _, p⟩ := p
    rw [p]
    exact h
  · rw [p.2.2.2.2.2]
    exact h
  · rw [p.2.2.2.2.2]
    exact ⟨h.1, h.2.1, p.2.2.2.2.1⟩

/-- Serving any sequence of requests keeps the invariant. -/
theorem serve_preserves_Inv (rs : List Request) (c : ConfToml) (h : Inv c) :
    Inv (serve c rs) := by
  induction rs generalizing c with
  | nil => exact h
  | cons r rs ih => exact ih _ (handler_preserves_Inv c r h)

/-- C5. With `Inv c` for workers and queue positive and pusher cap not negative: when the
CPU count reported is at least 1 the default configuration satisfies `Inv`, with pusher cap 0;
the handler preserves `Inv` on every request; hence after any finite sequence of requests
served from the default configuration `Inv` holds and the live pusher cap is not negative. -/
theorem pusher_cap_invariant (numCPU : Int) (hcpu : 1 ≤ numCPU) :
    (Inv (BuildDefaultConf numCPU) ∧ (BuildDefaultConf numCPU).Core.PusherMax = 0) ∧
    (∀ (c : ConfToml) (r : Request), Inv c → Inv (ConfigPushersHandler c r).conf) ∧
    (∀ rs : List Request, Inv (serve (BuildDefaultConf numCPU) rs) ∧
      0 ≤ (serve (BuildDefaultConf numCPU) rs).Core.PusherMax) := by
  have h0 : Inv (BuildDefaultConf numCPU) := by
    refine ⟨?_, ?_, ?_⟩
    · show numCPU > 0
      omega
    · show (8192 : Int) > 0
      decide
    · show (0 : Int) ≥ 0
      decide
  refine ⟨⟨h0, rfl⟩, handler_preserves_Inv, fun rs => ?_⟩
  have h := serve_preserves_Inv rs _ h0
  exact ⟨h, h.2.2⟩

/-- C5 on a machine with four CPUs, serving `max=5`, a rejected `max=-1` and `max=0`. -/
theorem pusher_cap_invariant_witness :
    (1 : Int) ≤ 4 ∧
    0 ≤ (serve (BuildDefaultConf 4)
      [⟨ascii "PUT", ascii "max=5"⟩, ⟨ascii "PUT", ascii "max=-1"⟩,
       ⟨ascii "PUT", ascii "max=0"⟩]).Core.PusherMax :=
  ⟨by decide, ((pusher_cap_invariant 4 (by decide)).2.2 _).2⟩

/-! ## Digits -/

/-- `lower` leaves a lower-case hexadecimal letter as it is. -/
theorem lower_of_lowercase (c : Nat) (h1 : 97 ≤ c) (h2 : c ≤ 102) : lower c = c := by
  interval_cases c <;> rfl

/-- `lower` moves an upper-case hexadecimal letter to lower case. -/
theorem lower_of_uppercase (c : Nat) (h1 : 65 ≤ c) (h2 : c ≤ 70) : lower c = c + 32 := by
  interval_cases c <;> rfl

/-- The digit the loop of `ParseUint` reads off a digit byte. -/
theorem digit_decode (b c : Nat) (h : isDigit b c) :
    (if 48 ≤ c ∧ c ≤ 57 then some (c - 48)
      else if 97 ≤ lower c ∧ lower c ≤ 122 then some (lower c - 97 + 10)
      else none) = some (digitValue c) ∧ digitValue c < b ∧ c ≠ 95 := by
  rcases h with ⟨h1, h2, h3⟩ | ⟨h1, h2, h3⟩ | ⟨h1, h2, h3⟩
  · refine ⟨?_, ?_, by omega⟩
    · rw [if_pos ⟨h1, h2⟩]
      simp [digitValue, h2]
    · simp only [digitValue, if_pos h2]
      exact h3
  · refine ⟨?_, ?_, by omega⟩
    · rw [if_neg (by omega), lower_of_lowercase c h1 h2, if_pos (by omega)]
      simp only [digitValue]
      rw [if_neg (by omega), if_pos h1]
      congr 1
      omega
    · simp only [digitValue]
      rw [if_neg (by omega), if_pos h1]
      exact h3
  · refine ⟨?_, ?_, by omega⟩
    · rw [if_neg (by omega), lower_of_uppercase c h1 h2, if_pos (by omega)]
      simp only [digitValue]
      rw [if_neg (by omega), if_neg (by omega)]
      congr 1
      omega
    · simp only [digitValue]
      rw [if_neg (by omega), if_neg (by omega)]
      exact h3

/-- The value of a numeral is at least what it started from. -/
theorem le_numeralValue (b : Nat) (hb : 1 ≤ b) (cs : GoString) (acc : Nat) :
    acc ≤ numeralValue b cs acc := by
  induction cs generalizing acc with
  | nil => exact le_refl _
  | cons c cs ih =>
    show acc ≤ numeralValue b cs (acc * b + digitValue c)
    have h1 := ih (acc * b + digitValue c)
    have h2 : acc ≤ acc * b := Nat.le_mul_of_pos_right acc hb
    omega

/-- On a string of digits of base 8, 10 or 16 the loop of `ParseUint` returns the value of the
numeral when that is below `2 ^ 64`, and the range error otherwise. -/
theorem parseUintLoop_digits (b : Nat) (hb : b = 8 ∨ b = 10 ∨ b = 16) (base0 us : Bool)
    (cs : GoString) (n : Nat) (hcs : ∀ c ∈ cs, isDigit b c) (hn : n < 2 ^ 64) :
    parseUintLoop b base0 ((2 ^ 64 - 1) / b + 1) (2 ^ 64 - 1) cs n us =
      if numeralValue b cs n < 2 ^ 64 then .ok (numeralValue b cs n, us)
      else .error (2 ^ 64 - 1, .ErrRange) := by
  induction cs generalizing n with
  | nil =>
    simp only [parseUintLoop, numeralValue, List.foldl_nil]
    rw [if_pos hn]
  | cons c cs ih =>
    obtain ⟨hd, hlt, h95⟩ := digit_decode b c (hcs c (List.mem_cons_self c cs))
    have hrest : ∀ x ∈ cs, isDigit b x := fun x hx => hcs x (List.mem_cons_of_mem c hx)
    have hval : numeralValue b (c :: cs) n = numeralValue b cs (n * b + digitValue c) := rfl
    have hge := le_numeralValue b (by omega) cs (n * b + digitValue c)
    rw [hval]
    rw [parseUintLoop]
    rw [if_neg (fun h => h95 h.1)]
    simp only [hd]
    rw [if_neg (by omega)]
    by_cases hcut : n ≥ (2 ^ 64 - 1) / b + 1
    · rw [if_pos hcut, if_neg]
      rcases hb with rfl | rfl | rfl <;> norm_num at hcut hn ⊢ <;> omega
    · rw [if_neg hcut]
      have hmul : n * b < 2 ^ 64 := by
        rcases hb with rfl | rfl | rfl <;> norm_num at hcut hn ⊢ <;> omega
      rw [Nat.mod_eq_of_lt hmul]
      by_cases hsum : n * b + digitValue c < 2 ^ 64
      · rw [Nat.mod_eq_of_lt hsum, if_neg (by omega)]
        exact ih (n * b + digitValue c) hrest hsum
      · rw [if_pos, if_neg (by omega)]
        left
        have h16 : digitValue c < 16 := by omega
        have hmod : (n * b + digitValue c) % 2 ^ 64 = n * b + digitValue c - 2 ^ 64 := by
          rw [Nat.mod_eq_sub_mod (by omega), Nat.mod_eq_of_lt (by omega)]
        rw [hmod]
        norm_num at hsum hmul ⊢
        omega

/-! ## `ParseUint` and `ParseInt` on numerals -/

/-- `ParseUint` with base 0 and 64 bits, once the base is picked and the bytes left are digits
of that base: the value of the numeral, or the range error from `2 ^ 64` on. -/
theorem ParseUint_of_pick (s digits : GoString) (b : Nat) (hs : s ≠ [])
    (hb : b = 8 ∨ b = 10 ∨ b = 16) (hpick : pickBase s 0 = some (b, digits))
    (hdig : ∀ c ∈ digits, isDigit b c) :
    ParseUint s 0 64 =
      if numeralValue b digits 0 < 2 ^ 64 then (numeralValue b digits 0, none)
      else (2 ^ 64 - 1, some .ErrRange) := by
  have hloop := parseUintLoop_digits b hb true false digits 0 hdig (by norm_num)
  simp only [ParseUint, hpick]
  rw [if_neg hs]
  norm_num
  norm_num at hloop
  rw [hloop]
  by_cases hlt : numeralValue b digits 0 < 18446744073709551616
  · simp [hlt]
  · simp [hlt]

/-- A decimal numeral without a leading zero is read in base 10. -/
theorem pickBase_decimal (d : Nat) (ds : GoString) (hd : d ≠ 48) :
    pickBase (d :: ds) 0 = some (10, d :: ds) := by
  unfold pickBase
  rw [if_neg (by omega), if_pos rfl]
  split
  · rename_i heq
    simp only [List.cons.injEq] at heq
    omega
  · rename_i heq
    simp only [List.cons.injEq] at heq
    omega
  · rfl

/-- After a leading `0` that no base mark follows, the rest is read in base 8. -/
theorem pickBase_octal (ds : GoString) (hds : ∀ c ∈ ds, isDigit 8 c) :
    pickBase (48 :: ds) 0 = some (8, ds) := by
  unfold pickBase
  rw [if_neg (by omega), if_pos rfl]
  cases ds with
  | nil => rfl
  | cons c t =>
    have hc : 48 ≤ c ∧ c ≤ 55 := by
      rcases hds c (List.mem_cons_self c t) with h | h | h <;> omega
    have hl : lower c = c := by
      obtain ⟨h1, h2⟩ := hc
      interval_cases c <;> rfl
    simp only [hl]
    rw [if_neg (by omega), if_neg (by omega), if_neg (by omega)]

/-- After the mark `0x` the rest, when there is one, is read in base 16. -/
theorem pickBase_hex (hs : GoString) (hne : hs ≠ []) :
    pickBase (48 :: 120 :: hs) 0 = some (16, hs) := by
  unfold pickBase
  rw [if_neg (by omega), if_pos rfl]
  have hlen : (48 :: 120 :: hs).length ≥ 3 := by
    cases hs with
    | nil => exact absurd rfl hne
    | cons c t => simp
  have hl : lower 120 = 120 := rfl
  simp only [hl]
  rw [if_neg (by omega), if_neg (by omega), if_pos ⟨hlen, trivial⟩]

/-- `ParseInt` on an unsigned numeral whose `ParseUint` value is below `2 ^ 63`. -/
theorem ParseInt_unsigned_ok (c : Nat) (t : GoString) (v : Nat) (h43 : c ≠ 43) (h45 : c ≠ 45)
    (hu : ParseUint (c :: t) 0 64 = (v, none)) (hv : v < 2 ^ 63) :
    ParseInt (c :: t) 0 64 = ((v : Int), none) := by
  simp only [ParseInt, if_neg h43, if_neg h45, hu]
  have hmod : v % 2 ^ 64 = v := Nat.mod_eq_of_lt (by omega)
  norm_num at hv ⊢
  rw [if_neg (by omega), if_neg (fun h => h45 h.1)]
  simp only [toInt64]
  rw [hmod]
  norm_num
  exact hv

/-- `ParseInt` on an unsigned numeral that `ParseUint` puts at `2 ^ 63` or above, with or
without its range error. -/
theorem ParseInt_unsigned_range (c : Nat) (t : GoString) (v : Nat) (e : Option NumErr)
    (h43 : c ≠ 43) (h45 : c ≠ 45) (hu : ParseUint (c :: t) 0 64 = (v, e))
    (he : e = none ∨ e = some .ErrRange) (hv : 2 ^ 63 ≤ v) :
    (ParseInt (c :: t) 0 64).2 = some .ErrRange := by
  simp only [ParseInt, if_neg h43, if_neg h45, hu]
  norm_num at hv ⊢
  rcases he with rfl | rfl
  · dsimp only
    rw [if_pos ⟨h45, hv⟩]
  · dsimp only
    rw [if_pos ⟨h45, hv⟩]

/-- `ParseInt` on a minus sign before a numeral of value at least 1: an error, or a negative
value. -/
theorem ParseInt_negative (t : GoString) (v : Nat) (e : Option NumErr)
    (hu : ParseUint t 0 64 = (v, e)) (he : e = none ∨ e = some .ErrRange) (h1 : 1 ≤ v)
    (h64 : v < 2 ^ 64) :
    (ParseInt (45 :: t) 0 64).2 ≠ none ∨ (ParseInt (45 :: t) 0 64).1 < 0 := by
  have hmod : v % 2 ^ 64 = v := Nat.mod_eq_of_lt h64
  by_cases hv : v > 2 ^ 63
  · left
    simp only [ParseInt]
    norm_num at hv ⊢
    rw [hu]
    rcases he with rfl | rfl
    · dsimp only
      rw [if_pos hv]
      simp
    · dsimp only
      rw [if_pos hv]
      simp
  · right
    simp only [ParseInt]
    norm_num at hv h64 ⊢
    rw [hu]
    have hneg : negInt64 (toInt64 v) < 0 := by
      simp only [toInt64, negInt64]
      rw [hmod]
      split_ifs <;> omega
    rcases he with rfl | rfl
    · dsimp only
      rw [if_neg (by omega)]
      exact hneg
    · dsimp only
      rw [if_neg (by omega)]
      exact hneg

/-! ## Decimal numerals -/

/-- The numeral made of the digits `L`, least significant first, has the value of `L`. -/
theorem numeralValue_reverse_map (L : List Nat) (hL : ∀ d ∈ L, d < 10) :
    numeralValue 10 (L.reverse.map (fun d => d + 48)) 0 = Nat.ofDigits 10 L := by
  induction L with
  | nil => rfl
  | cons d L ih =>
    have hd : d < 10 := hL d (List.mem_cons_self d L)
    have ih1 := ih (fun x hx => hL x (List.mem_cons_of_mem d hx))
    unfold numeralValue at ih1 ⊢
    rw [List.reverse_cons, List.map_append, List.foldl_append, ih1, Nat.ofDigits_cons]
    simp only [List.map_cons, List.map_nil, List.foldl_cons, List.foldl_nil, digitValue]
    rw [if_pos (by omega)]
    omega

/-- The canonical numeral of `n` denotes `n`. -/
theorem numeralValue_decimal (n : Nat) : numeralValue 10 (decimal n) 0 = n := by
  unfold decimal
  by_cases h0 : n = 0
  · rw [if_pos h0, h0]
    rfl
  · rw [if_neg h0, numeralValue_reverse_map _ (fun d hd => Nat.digits_lt_base (by norm_num) hd),
      Nat.ofDigits_digits]

/-- The canonical numeral of a positive number: a first digit that is not `0`, then digits. -/
theorem decimal_pos (n : Nat) (h : 0 < n) :
    ∃ d ds, decimal n = d :: ds ∧ (49 ≤ d ∧ d ≤ 57) ∧ ∀ c ∈ ds, 48 ≤ c ∧ c ≤ 57 := by
  have h0 : n ≠ 0 := by omega
  have hne : Nat.digits 10 n ≠ [] := Nat.digits_ne_nil_iff_ne_zero.mpr h0
  have hlast := Nat.getLast_digit_ne_zero 10 h0
  have hlt : ∀ x ∈ (Nat.digits 10 n).reverse, x < 10 := fun x hx =>
    Nat.digits_lt_base (by norm_num) (List.mem_reverse.mp hx)
  unfold decimal
  rw [if_neg h0]
  cases hrev : (Nat.digits 10 n).reverse with
  | nil => exact absurd (List.reverse_eq_nil_iff.mp hrev) hne
  | cons x xs =>
    have hx : x = (Nat.digits 10 n).getLast hne := by
      have hh := List.head_reverse (l := Nat.digits 10 n) (by rw [hrev]; exact List.cons_ne_nil _ _)
      rw [← hh]
      simp only [hrev, List.head_cons]
    have hx10 : x < 10 := hlt x (by rw [hrev]; exact List.mem_cons_self x xs)
    have hx0 : x ≠ 0 := by
      rw [hx]
      exact hlast
    refine ⟨x + 48, xs.map (fun d => d + 48), by simp, ⟨by omega, by omega⟩, ?_⟩
    intro c hc
    obtain ⟨y, hy, rfl⟩ := List.mem_map.mp hc
    have := hlt y (by rw [hrev]; exact List.mem_cons_of_mem x hy)
    omega

/-! ## `ParseQuery` on a single `max` parameter -/

/-- A query without `&` is one segment. -/
theorem segments_single (s : GoString) (hne : s ≠ []) (h : 38 ∉ s) : segments s = [s] := by
  induction s with
  | nil => exact absurd rfl hne
  | cons c q ih =>
    have hc : c ≠ 38 := fun e => h (by rw [e]; exact List.mem_cons_self 38 q)
    have hq : 38 ∉ q := fun e => h (List.mem_cons_of_mem c e)
    unfold segments
    rw [if_neg hc]
    cases q with
    | nil => rfl
    | cons c2 q2 => rw [ih (List.cons_ne_nil _ _) hq]

/-- Without `%` there is no escape to reject. -/
theorem escapeCheck_plain (s : GoString) (h : 37 ∉ s) : escapeCheck s = none := by
  induction s with
  | nil => rfl
  | cons c q ih =>
    have hc : c ≠ 37 := fun e => h (by rw [e]; exact List.mem_cons_self 37 q)
    have hq : 37 ∉ q := fun e => h (List.mem_cons_of_mem c e)
    have hstep : escapeCheck (c :: q) = escapeCheck q := by
      rcases q with _ | ⟨a, _ | ⟨b, rest⟩⟩ <;> simp [escapeCheck, hc]
    rw [hstep]
    exact ih hq

/-- A string without `%` and `+` unescapes to itself. -/
theorem QueryUnescape_plain (s : GoString) (h37 : 37 ∉ s) (h43 : 43 ∉ s) :
    QueryUnescape s = .ok s := by
  unfold QueryUnescape
  rw [escapeCheck_plain s h37]
  simp only []
  rw [if_pos ⟨h37, h43⟩]

/-- The query `max=v`, for a value free of `&`, `;`, `%` and `+`, decodes to the one key `max`
with the one value `v`. -/
theorem ParseQuery_max (v : GoString) (hv : ∀ c ∈ v, c ≠ 38 ∧ c ≠ 59 ∧ c ≠ 37 ∧ c ≠ 43) :
    ParseQuery (ascii "max=" ++ v) = ([(ascii "max", [v])], none) := by
  have e : ascii "max=" ++ v = 109 :: 97 :: 120 :: 61 :: v := rfl
  have h38 : 38 ∉ 109 :: 97 :: 120 :: 61 :: v := by
    intro hm
    simp only [List.mem_cons] at hm
    rcases hm with h | h | h | h | h
    · omega
    · omega
    · omega
    · omega
    · exact (hv 38 h).1 rfl
  have h59 : 59 ∉ 109 :: 97 :: 120 :: 61 :: v := by
    intro hm
    simp only [List.mem_cons] at hm
    rcases hm with h | h | h | h | h
    · omega
    · omega
    · omega
    · omega
    · exact (hv 59 h).2.1 rfl
  have hcut : cut 61 (109 :: 97 :: 120 :: 61 :: v) = (ascii "max", v, true) := by
    simp [cut, ascii]
  have hkey : QueryUnescape (ascii "max") = .ok (ascii "max") := rfl
  have hval : QueryUnescape v = .ok v :=
    QueryUnescape_plain v (fun h => (hv 37 h).2.2.1 rfl) (fun h => (hv 43 h).2.2.2 rfl)
  rw [e]
  unfold ParseQuery
  rw [segments_single _ (List.cons_ne_nil _ _) h38]
  simp only [List.foldl_cons, List.foldl_nil, parseQueryStep]
  rw [if_neg h59, if_neg (List.cons_ne_nil _ _), hcut]
  simp only [hkey, hval]
  rfl

/-! ## `ParseInt` on the numerals of the claims -/

/-- The bytes of a canonical numeral are decimal digits, and there is at least one. -/
theorem decimal_bytes (n : Nat) : decimal n ≠ [] ∧ ∀ c ∈ decimal n, 48 ≤ c ∧ c ≤ 57 := by
  by_cases h0 : n = 0
  · subst h0
    refine ⟨by decide, ?_⟩
    intro c hc
    have hc48 : c = 48 := by simpa [decimal] using hc
    omega
  · obtain ⟨d, ds, hd, hd1, hds⟩ := decimal_pos n (by omega)
    rw [hd]
    refine ⟨List.cons_ne_nil _ _, ?_⟩
    intro c hc
    rcases List.mem_cons.mp hc with rfl | hc
    · omega
    · exact hds c hc

/-- `ParseUint` on the canonical numeral of a positive number. -/
theorem ParseUint_decimal (n : Nat) (h : 0 < n) :
    ParseUint (decimal n) 0 64 =
      if n < 2 ^ 64 then (n, none) else (2 ^ 64 - 1, some .ErrRange) := by
  obtain ⟨d, ds, hd, hd1, hds⟩ := decimal_pos n h
  have hval := numeralValue_decimal n
  rw [hd] at hval ⊢
  have hall : ∀ c ∈ d :: ds, isDigit 10 c := by
    intro c hc
    rcases List.mem_cons.mp hc with rfl | hc
    · exact Or.inl ⟨by omega, hd1.2, by omega⟩
    · exact Or.inl ⟨(hds c hc).1, (hds c hc).2, by have := hds c hc; omega⟩
  rw [ParseUint_of_pick (d :: ds) (d :: ds) 10 (List.cons_ne_nil _ _) (Or.inr (Or.inl rfl))
    (pickBase_decimal d ds (by omega)) hall, hval]

/-- `ParseInt` reads the canonical numeral of a number below `2 ^ 63` as that number. -/
theorem ParseInt_decimal (n : Nat) (hn : n < 2 ^ 63) :
    ParseInt (decimal n) 0 64 = ((n : Int), none) := by
  by_cases h0 : n = 0
  · subst h0
    rfl
  · have hu := ParseUint_decimal n (by omega)
    rw [if_pos (by omega)] at hu
    obtain ⟨d, ds, hd, hd1, _⟩ := decimal_pos n (by omega)
    rw [hd] at hu ⊢
    exact ParseInt_unsigned_ok d ds n (by omega) (by omega) hu hn

/-- `ParseInt` on a minus sign before the canonical numeral of a positive number: an error
or a negative value. -/
theorem ParseInt_minus_decimal (n : Nat) (h : 1 ≤ n) :
    (ParseInt (45 :: decimal n) 0 64).2 ≠ none ∨ (ParseInt (45 :: decimal n) 0 64).1 < 0 := by
  have hu := ParseUint_decimal n (by omega)
  by_cases h64 : n < 2 ^ 64
  · rw [if_pos h64] at hu
    exact ParseInt_negative (decimal n) n none hu (Or.inl rfl) h h64
  · rw [if_neg h64] at hu
    exact ParseInt_negative (decimal n) (2 ^ 64 - 1) (some .ErrRange) hu (Or.inr rfl)
      (by norm_num) (by norm_num)

/-- `ParseInt` reads `0x` before hexadecimal digits of value below `2 ^ 63` as that value. -/
theorem ParseInt_hex (hs : GoString) (hne : hs ≠ []) (hhs : ∀ c ∈ hs, isDigit 16 c)
    (hv : numeralValue 16 hs 0 < 2 ^ 63) :
    ParseInt (48 :: 120 :: hs) 0 64 = (((numeralValue 16 hs 0 : Nat) : Int), none) := by
  have hu := ParseUint_of_pick (48 :: 120 :: hs) hs 16 (List.cons_ne_nil _ _)
    (Or.inr (Or.inr rfl)) (pickBase_hex hs hne) hhs
  rw [if_pos (by omega)] at hu
  exact ParseInt_unsigned_ok 48 (120 :: hs) _ (by omega) (by omega) hu hv

/-- `ParseInt` on a leading `0` before octal digits: their value in base 8 when that is below
`2 ^ 63`, the range error otherwise. -/
theorem ParseInt_octal (ds : GoString) (hds : ∀ c ∈ ds, isDigit 8 c) :
    (numeralValue 8 ds 0 < 2 ^ 63 →
      ParseInt (48 :: ds) 0 64 = (((numeralValue 8 ds 0 : Nat) : Int), none)) ∧
    (2 ^ 63 ≤ numeralValue 8 ds 0 → (ParseInt (48 :: ds) 0 64).2 = some .ErrRange) := by
  have hu := ParseUint_of_pick (48 :: ds) ds 8 (List.cons_ne_nil _ _) (Or.inl rfl)
    (pickBase_octal ds hds) hds
  refine ⟨fun hv => ?_, fun hv => ?_⟩
  · rw [if_pos (by omega)] at hu
    exact ParseInt_unsigned_ok 48 ds _ (by omega) (by omega) hu hv
  · by_cases h64 : numeralValue 8 ds 0 < 2 ^ 64
    · rw [if_pos h64] at hu
      exact ParseInt_unsigned_range 48 ds _ none (by omega) (by omega) hu (Or.inl rfl) hv
    · rw [if_neg h64] at hu
      exact ParseInt_unsigned_range 48 ds _ (some .ErrRange) (by omega) (by omega) hu
        (Or.inr rfl) (by norm_num)

/-- `ParseInt` rejects a leading `0` followed by the digit 8 or 9, whatever comes after. -/
theorem ParseInt_zero_eight_nine (d : Nat) (rest : GoString) (hd : d = 56 ∨ d = 57) :
    (ParseInt (48 :: d :: rest) 0 64).2 = some .ErrSyntax := by
  rcases hd with rfl | rfl
  · simp [ParseInt, ParseUint, pickBase, parseUintLoop, lower]
  · simp [ParseInt, ParseUint, pickBase, parseUintLoop, lower]

/-- The loop over the map finds the first value stored under `max`. -/
theorem rangeMax_eq_lookup (values : Values) :
    rangeMax values =
      match values.lookup (ascii "max") with
      | none => []
      | some vs => vs.headD [] := by
  induction values with
  | nil => rfl
  | cons kv rest ih =>
    obtain ⟨k, v⟩ := kv
    by_cases hk : k = ascii "max"
    · subst hk
      simp [rangeMax, List.lookup]
    · have hk2 : (ascii "max" == k) = false := by
        simp only [beq_eq_false_iff_ne, ne_eq]
        exact fun e => hk e.symm
      simp only [rangeMax, List.lookup, if_neg hk, hk2]
      exact ih

/-! ## The handler on a decoded `max` value -/

/-- A PUT request whose query decodes and whose `max` value `ParseInt` reads as `n ≥ 0` is
accepted: the cap becomes `n`. -/
theorem handler_accepts (c : ConfToml) (r : Request) (values : Values) (n : Int)
    (hm : r.Method = ascii "PUT") (hq : ParseQuery r.RawQuery = (values, none))
    (hne : rangeMax values ≠ []) (hp : ParseInt (rangeMax values) 0 64 = (n, none))
    (h0 : 0 ≤ n) :
    ConfigPushersHandler c r =
      ⟨{ c with Core := { c.Core with PusherMax := n } }, ⟨200, ascii "ok"⟩, []⟩ := by
  unfold ConfigPushersHandler sendResponse
  simp [hm, hq, hne, hp, h0, StatusOK]

/-- A PUT request whose query decodes and whose `max` value is missing, empty, rejected by
`ParseInt` or read as a negative number is answered 400 "malformed value", and the
configuration stays as it was. -/
theorem handler_rejects (c : ConfToml) (r : Request) (values : Values)
    (hm : r.Method = ascii "PUT") (hq : ParseQuery r.RawQuery = (values, none))
    (h : rangeMax values = [] ∨ (ParseInt (rangeMax values) 0 64).2 ≠ none ∨
      (ParseInt (rangeMax values) 0 64).1 < 0) :
    (ConfigPushersHandler c r).response = ⟨400, ascii "malformed value"⟩ ∧
    (ConfigPushersHandler c r).conf = c := by
  unfold ConfigPushersHandler sendResponse
  by_cases hin : rangeMax values = []
  · simp [hm, hq, hin, StatusBadRequest]
  · rcases hp : ParseInt (rangeMax values) 0 64 with ⟨v, _ | nerr⟩
    · have hv : v < 0 := by
        rcases h with h | h | h
        · exact absurd h hin
        · rw [hp] at h
          exact absurd rfl h
        · rw [hp] at h
          exact h
      simp [hm, hq, hin, hp, hv, StatusBadRequest]
    · simp [hm, hq, hin, hp, StatusBadRequest]

/-! ## Accepted and rejected `max` values -/

/-- C1. For every `n` from 0 to `2 ^ 63 - 1` and every starting configuration, the handler
answers the PUT request with query `max=` followed by the canonical decimal numeral of `n`
with status 200 and body "ok", and `Core.PusherMax` is `n` afterwards. -/
theorem put_decimal_sets_cap (c : ConfToml) (n : Nat) (hn : n ≤ 2 ^ 63 - 1) :
    (ConfigPushersHandler c ⟨ascii "PUT", ascii "max=" ++ decimal n⟩).response =
      ⟨200, ascii "ok"⟩ ∧
    (ConfigPushersHandler c ⟨ascii "PUT", ascii "max=" ++ decimal n⟩).conf.Core.PusherMax =
      (n : Int) := by
  obtain ⟨hne, hbytes⟩ := decimal_bytes n
  have hq : ParseQuery (ascii "max=" ++ decimal n) = ([(ascii "max", [decimal n])], none) :=
    ParseQuery_max (decimal n) (fun x hx => by have := hbytes x hx; omega)
  have hr : rangeMax [(ascii "max", [decimal n])] = decimal n := by
    simp [rangeMax]
  have h := handler_accepts c ⟨ascii "PUT", ascii "max=" ++ decimal n⟩
    [(ascii "max", [decimal n])] (n : Int) rfl hq (by rw [hr]; exact hne)
    (by rw [hr]; exact ParseInt_decimal n (by omega)) (by omega)
  rw [h]
  exact ⟨rfl, rfl⟩

/-- C1 at `max=5` and `max=0` on the default configuration. -/
theorem put_decimal_sets_cap_witness :
    ((ConfigPushersHandler (BuildDefaultConf 4) ⟨ascii "PUT", ascii "max=5"⟩).response =
        ⟨200, ascii "ok"⟩ ∧
      (ConfigPushersHandler (BuildDefaultConf 4) ⟨ascii "PUT", ascii "max=5"⟩).conf.Core.PusherMax
        = 5) ∧
    ((ConfigPushersHandler (BuildDefaultConf 4) ⟨ascii "PUT", ascii "max=0"⟩).response =
        ⟨200, ascii "ok"⟩ ∧
      (ConfigPushersHandler (BuildDefaultConf 4) ⟨ascii "PUT", ascii "max=0"⟩).conf.Core.PusherMax
        = 0) := by
  have e5 : decimal 5 = ascii "5" := by simp [decimal, ascii]
  have e0 : decimal 0 = ascii "0" := by simp [decimal, ascii]
  have h5 := put_decimal_sets_cap (BuildDefaultConf 4) 5 (by norm_num)
  have h0 := put_decimal_sets_cap (BuildDefaultConf 4) 0 (by norm_num)
  rw [e5] at h5
  rw [e0] at h0
  exact ⟨h5, h0⟩

/-- C2. The rejection table of the handler. A request whose method is not PUT is answered
400 "method must be PUT", whatever its query. A PUT request whose query decodes is answered
400 "malformed value" when the `max` parameter is absent, when its value is empty, when
`ParseInt` rejects the value, when `ParseInt` reads it as a negative number, and in
particular when the value is a minus sign before the decimal numeral of a positive number. -/
theorem handler_rejections (c : ConfToml) (r : Request) :
    (r.Method ≠ ascii "PUT" →
      (ConfigPushersHandler c r).response = ⟨400, ascii "method must be PUT"⟩) ∧
    (r.Method = ascii "PUT" → ∀ values, ParseQuery r.RawQuery = (values, none) →
      (values.lookup (ascii "max") = none ∨
        (∃ rest, values.lookup (ascii "max") = some ([] :: rest)) ∨
        (∃ v rest, values.lookup (ascii "max") = some (v :: rest) ∧
          (ParseInt v 0 64).2 ≠ none) ∨
        (∃ v rest, values.lookup (ascii "max") = some (v :: rest) ∧
          (ParseInt v 0 64).2 = none ∧ (ParseInt v 0 64).1 < 0) ∨
        (∃ n rest, 1 ≤ n ∧
          values.lookup (ascii "max") = some ((45 :: decimal n) :: rest))) →
      (ConfigPushersHandler c r).response = ⟨400, ascii "malformed value"⟩) := by
  refine ⟨fun hm => ?_, fun hm values hq h => ?_⟩
  · unfold ConfigPushersHandler sendResponse
    simp [hm, StatusBadRequest]
  · refine (handler_rejects c r values hm hq ?_).1
    rw [rangeMax_eq_lookup]
    rcases h with h | ⟨rest, h⟩ | ⟨v, rest, h, he⟩ | ⟨v, rest, h, _, hneg⟩ | ⟨n, rest, hn, h⟩
    · rw [h]
      exact Or.inl rfl
    · rw [h]
      exact Or.inl rfl
    · rw [h]
      exact Or.inr (Or.inl he)
    · rw [h]
      exact Or.inr (Or.inr hneg)
    · rw [h]
      exact Or.inr (ParseInt_minus_decimal n hn)

/-- C2 at the requests `GET max=5`, `PUT` with no query, `PUT max=`, `PUT max=abc` and
`PUT max=-1` on the default configuration. -/
theorem handler_rejections_witness :
    (ConfigPushersHandler (BuildDefaultConf 4) ⟨ascii "GET", ascii "max=5"⟩).response =
      ⟨400, ascii "method must be PUT"⟩ ∧
    (ConfigPushersHandler (BuildDefaultConf 4) ⟨ascii "PUT", ascii ""⟩).response =
      ⟨400, ascii "malformed value"⟩ ∧
    (ConfigPushersHandler (BuildDefaultConf 4) ⟨ascii "PUT", ascii "max="⟩).response =
      ⟨400, ascii "malformed value"⟩ ∧
    (ConfigPushersHandler (BuildDefaultConf 4) ⟨ascii "PUT", ascii "max=abc"⟩).response =
      ⟨400, ascii "malformed value"⟩ ∧
    (ConfigPushersHandler (BuildDefaultConf 4) ⟨ascii "PUT", ascii "max=-1"⟩).response =
      ⟨400, ascii "malformed value"⟩ :=
  ⟨(handler_rejections _ ⟨ascii "GET", ascii "max=5"⟩).1 (by decide),
   (handler_rejections _ ⟨ascii "PUT", ascii ""⟩).2 rfl [] rfl (Or.inl rfl),
   (handler_rejections _ ⟨ascii "PUT", ascii "max="⟩).2 rfl [(ascii "max", [[]])] rfl
     (Or.inr (Or.inl ⟨[], rfl⟩)),
   (handler_rejections _ ⟨ascii "PUT", ascii "max=abc"⟩).2 rfl [(ascii "max", [ascii "abc"])] rfl
     (Or.inr (Or.inr (Or.inl ⟨ascii "abc", [], rfl, by decide⟩))),
   (handler_rejections _ ⟨ascii "PUT", ascii "max=-1"⟩).2 rfl [(ascii "max", [ascii "-1"])] rfl
     (Or.inr (Or.inr (Or.inr (Or.inl ⟨ascii "-1", [], rfl, by decide, by decide⟩))))⟩

/-- C10, as stated, fails in two places. A leading `0` before octal digits whose value is
`2 ^ 63` is not stored: the request is answered 400 "malformed value" and the cap keeps its
value. And a PUT request whose `max` value is `0x10` is answered 400 "url parameters could
not be parsed", the cap unchanged, when another parameter of its query does not decode. -/
theorem handler_base_mark_counterexample :
    (numeralValue 8 (ascii "1000000000000000000000") 0 = 2 ^ 63 ∧
      (ConfigPushersHandler (BuildDefaultConf 4)
        ⟨ascii "PUT", ascii "max=01000000000000000000000"⟩).response =
          ⟨400, ascii "malformed value"⟩ ∧
      (ConfigPushersHandler (BuildDefaultConf 4)
        ⟨ascii "PUT", ascii "max=01000000000000000000000"⟩).conf.Core.PusherMax = 0) ∧
    (rangeMax (ParseQuery (ascii "max=0x10&x=%zz")).1 = ascii "0x10" ∧
      (ConfigPushersHandler (BuildDefaultConf 4)
        ⟨ascii "PUT", ascii "max=0x10&x=%zz"⟩).response =
          ⟨400, ascii "url parameters could not be parsed"⟩ ∧
      (ConfigPushersHandler (BuildDefaultConf 4)
        ⟨ascii "PUT", ascii "max=0x10&x=%zz"⟩).conf.Core.PusherMax = 0) := by
  decide

/-- C10, amended. The handler reads the `max` value in the base its head marks, not as plain
decimal. For a PUT request whose query decodes: when the `max` value is `0x` before one or
more hexadecimal digits denoting `n ≤ 2 ^ 63 - 1`, the response is 200 "ok" and the cap
becomes `n`; when it is a leading `0` before one or more octal digits denoting
`n ≤ 2 ^ 63 - 1`, the response is 200 "ok" and the cap becomes `n`, the octal reading; and
when it is a leading `0` followed by the digit 8 or 9, the request is answered 400
"malformed value" and the cap keeps its value. -/
theorem handler_base_mark (c : ConfToml) (r : Request) (values : Values)
    (hm : r.Method = ascii "PUT") (hq : ParseQuery r.RawQuery = (values, none)) :
    (∀ hs : GoString, hs ≠ [] → (∀ x ∈ hs, isDigit 16 x) → numeralValue 16 hs 0 ≤ 2 ^ 63 - 1 →
      rangeMax values = 48 :: 120 :: hs →
      (ConfigPushersHandler c r).response = ⟨200, ascii "ok"⟩ ∧
      (ConfigPushersHandler c r).conf.Core.PusherMax = (numeralValue 16 hs 0 : Nat)) ∧
    (∀ ds : GoString, ds ≠ [] → (∀ x ∈ ds, isDigit 8 x) → numeralValue 8 ds 0 ≤ 2 ^ 63 - 1 →
      rangeMax values = 48 :: ds →
      (ConfigPushersHandler c r).response = ⟨200, ascii "ok"⟩ ∧
      (ConfigPushersHandler c r).conf.Core.PusherMax = (numeralValue 8 ds 0 : Nat)) ∧
    (∀ (d : Nat) (rest : GoString), d = 56 ∨ d = 57 → rangeMax values = 48 :: d :: rest →
      (ConfigPushersHandler c r).response = ⟨400, ascii "malformed value"⟩ ∧
      (ConfigPushersHandler c r).conf = c) := by
  refine ⟨fun hs hne hhs hv hmax => ?_, fun ds _ hds hv hmax => ?_, fun d rest hd hmax => ?_⟩
  · have h := handler_accepts c r values _ hm hq (by rw [hmax]; exact List.cons_ne_nil _ _)
      (by rw [hmax]; exact ParseInt_hex hs hne hhs (by omega)) (Int.natCast_nonneg _)
    rw [h]
    exact ⟨rfl, rfl⟩
  · have h := handler_accepts c r values _ hm hq (by rw [hmax]; exact List.cons_ne_nil _ _)
      (by rw [hmax]; exact (ParseInt_octal ds hds).1 (by omega)) (Int.natCast_nonneg _)
    rw [h]
    exact ⟨rfl, rfl⟩
  · refine handler_rejects c r values hm hq (Or.inr (Or.inl ?_))
    rw [hmax, ParseInt_zero_eight_nine d rest hd]
    exact fun e => nomatch e

/-- C10 at `max=0x10`, which stores 16, at `max=010`, which stores 8, and at `max=08`, which
is rejected. -/
theorem handler_base_mark_witness :
    (ConfigPushersHandler (BuildDefaultConf 4) ⟨ascii "PUT", ascii "max=0x10"⟩).conf.Core.PusherMax
      = 16 ∧
    (ConfigPushersHandler (BuildDefaultConf 4) ⟨ascii "PUT", ascii "max=010"⟩).conf.Core.PusherMax
      = 8 ∧
    (ConfigPushersHandler (BuildDefaultConf 4) ⟨ascii "PUT", ascii "max=08"⟩).response =
      ⟨400, ascii "malformed value"⟩ :=
  ⟨((handler_base_mark (BuildDefaultConf 4) ⟨ascii "PUT", ascii "max=0x10"⟩
      [(ascii "max", [ascii "0x10"])] rfl rfl).1 (ascii "10") (by decide)
      (by decide) (by decide) rfl).2,
   ((handler_base_mark (BuildDefaultConf 4) ⟨ascii "PUT", ascii "max=010"⟩
      [(ascii "max", [ascii "010"])] rfl rfl).2.1 (ascii "10") (by decide)
      (by decide) (by decide) rfl).2,
   ((handler_base_mark (BuildDefaultConf 4) ⟨ascii "PUT", ascii "max=08"⟩
      [(ascii "max", [ascii "08"])] rfl rfl).2.2 56 [] (Or.inl rfl) rfl).1⟩

/-! ## The embedding of the loops -/

/-- The segments of a query that is not empty: what `strings.Cut(query, "&")` puts before the
separator, then the segments of what it puts after. -/
theorem segments_cons_cut (c : Nat) (q : GoString) :
    segments (c :: q) = (cut 38 (c :: q)).1 :: segments (cut 38 (c :: q)).2.1 := by
  induction q generalizing c with
  | nil =>
    by_cases hc : c = 38
    · simp [segments, cut, hc]
    · simp [segments, cut, hc]
  | cons c2 q ih =>
    by_cases hc : c = 38
    · simp [segments, cut, hc]
    · have h2 := ih c2
      rw [segments, if_neg hc, h2]
      simp [cut, hc]

/-- The update of the map keeps every slice stored in it non-empty. -/
theorem Values.add_nonempty (m : Values) (key value : GoString)
    (hm : ∀ kv ∈ m, kv.2 ≠ []) : ∀ kv ∈ m.add key value, kv.2 ≠ [] := by
  induction m with
  | nil =>
    intro kv hkv
    simp only [Values.add, List.mem_singleton] at hkv
    rw [hkv]
    exact List.cons_ne_nil _ _
  | cons e m ih =>
    obtain ⟨k, vs⟩ := e
    intro kv hkv
    unfold Values.add at hkv
    by_cases hk : k = key
    · rw [if_pos hk] at hkv
      rcases List.mem_cons.mp hkv with rfl | hkv
      · simp
      · exact hm kv (List.mem_cons_of_mem _ hkv)
    · rw [if_neg hk] at hkv
      rcases List.mem_cons.mp hkv with rfl | hkv
      · exact hm _ (List.mem_cons_self _ _)
      · exact ih (fun x hx => hm x (List.mem_cons_of_mem _ hx)) kv hkv

/-- One iteration of `url.parseQuery` keeps every slice of the map non-empty. -/
theorem parseQueryStep_nonempty (st : Values × Option QueryErr) (key : GoString)
    (hm : ∀ kv ∈ st.1, kv.2 ≠ []) : ∀ kv ∈ (parseQueryStep st key).1, kv.2 ≠ [] := by
  unfold parseQueryStep
  by_cases h59 : 59 ∈ key
  · rw [if_pos h59]
    exact hm
  · rw [if_neg h59]
    by_cases hk : key = []
    · rw [if_pos hk]
      exact hm
    · rw [if_neg hk]
      dsimp only
      cases QueryUnescape (cut 61 key).1 with
      | error e => exact hm
      | ok k =>
        cases QueryUnescape (cut 61 key).2.1 with
        | error e => exact hm
        | ok v => exact Values.add_nonempty st.1 _ _ hm

/-- Every key of the map `url.ParseQuery` returns has at least one value, so the index `v[0]`
in the handler is in range. -/
theorem ParseQuery_values_nonempty (query : GoString) :
    ∀ kv ∈ (ParseQuery query).1, kv.2 ≠ [] := by
  unfold ParseQuery
  have key : ∀ (segs : List GoString) (st : Values × Option QueryErr),
      (∀ kv ∈ st.1, kv.2 ≠ []) → ∀ kv ∈ (segs.foldl parseQueryStep st).1, kv.2 ≠ [] := by
    intro segs
    induction segs with
    | nil => exact fun st h => h
    | cons s segs ih => exact fun st h => ih _ (parseQueryStep_nonempty st s h)
  exact key _ _ (fun kv hkv => absurd hkv (List.not_mem_nil kv))

end Gaurun
